import Mathlib

/-!
# Verification of the plagiarism-detection engine

Shallow embedding of the similarity/matching engine of the repository
(`PlagiarismDetector` in `src/util/deepSeekApi.ts`, plus the similarity
computation of `handleFileUpload` in `src/App.tsx`).

Strings are modelled as `List Char`.  JavaScript's `String.prototype.split`
on a one-or-more character-class regex (`/\s+/`, `/[.!?]+/`) is modelled by
`splitRuns`, which splits on maximal runs of characters satisfying a
predicate, keeping empty edge fragments exactly as JavaScript does.
`Array.prototype.sort` with the comparator `(a, b) => b.similarity -
a.similarity` is a stable sort by similarity descending (ECMA-262 requires
sort stability), modelled by the stable insertion sort `sortDesc`.
`Math.round((num / den) * 100)` on the non-negative rationals produced here
rounds half up, modelled exactly by `roundRatio num den = (200*num + den) /
(2*den)` in natural division.
-/

namespace Plag

/-- ASCII lower-case letter `a`–`z`, one arm of the regex class `[a-zA-Z]`. -/
def isLowerAlpha (c : Char) : Bool :=
  97 ≤ c.toNat && c.toNat ≤ 122

/-- ASCII upper-case letter `A`–`Z`, the other arm of `[a-zA-Z]`. -/
def isUpperAlpha (c : Char) : Bool :=
  65 ≤ c.toNat && c.toNat ≤ 90

/-- A character admitted by the regex class `[a-zA-Z]`. -/
def isAlphaChar (c : Char) : Bool :=
  isLowerAlpha c || isUpperAlpha c

/-- The test `/^[a-zA-Z]+$/.test(word)`: non-empty and purely alphabetic. -/
def isAlphaToken (w : List Char) : Bool :=
  !w.isEmpty && w.all isAlphaChar

/-- `String.prototype.toLowerCase` restricted to ASCII (the engine's inputs
are cleaned ASCII-ish text; only `A`–`Z` are affected). -/
def toLowerChar (c : Char) : Char :=
  if 65 ≤ c.toNat ∧ c.toNat ≤ 90 then Char.ofNat (c.toNat + 32) else c

/-- The whitespace class `\s` of the regexes `/\s+/` (ASCII core). -/
def isSpace (c : Char) : Bool :=
  c == ' ' || c == '\t' || c == '\n' || c == '\r' || c == '\x0B' || c == '\x0C'

/-- The sentence-delimiter class `[.!?]` of `extractSentences`. -/
def isDelim (c : Char) : Bool :=
  c == '.' || c == '!' || c == '?'

theorem dropWhile_length_le {α : Type} (p : α → Bool) (l : List α) :
    (l.dropWhile p).length ≤ l.length := by
  induction l with
  | nil => simp
  | cons c cs ih =>
    rw [List.dropWhile_cons]
    split
    · exact Nat.le_succ_of_le ih
    · exact Nat.le_refl _

/-- `str.split(regex)` for a regex matching one-or-more characters of the
class `p`: split on maximal runs of `p`-characters.  Like JavaScript,
`splitRuns p []` is `[[]]` and runs touching either end leave empty
fragments. -/
def splitRuns (p : Char → Bool) : List Char → List (List Char)
  | [] => [[]]
  | c :: cs =>
    if p c then
      match cs with
      | [] => [[], []]
      | c2 :: _ => if p c2 then splitRuns p cs else [] :: splitRuns p cs
    else
      match splitRuns p cs with
      | [] => [[c]]
      | f :: rest => (c :: f) :: rest

/-- `String.prototype.trim`: strip whitespace from both ends. -/
def trim (s : List Char) : List Char :=
  ((s.dropWhile isSpace).reverse.dropWhile isSpace).reverse

/-- The stop-word list of `isStopWord` (`deepSeekApi.ts`, lines 122–126). -/
def stopWords : List (List Char) :=
  ["the", "a", "an", "and", "or", "but", "in", "on", "at", "to", "for", "of",
   "with", "by", "is", "are", "was", "were", "be", "been", "being", "have",
   "has", "had", "do", "does", "did", "will", "would", "could", "should",
   "may", "might", "can", "this", "that", "these", "those"].map String.toList

/-- `isStopWord` (`deepSeekApi.ts`, lines 121–128): exact membership in the
fixed stop-word set. -/
def isStopWord (w : List Char) : Bool :=
  stopWords.contains w

/-- `getSignificantWords` (`deepSeekApi.ts`, lines 93–102): lower-case the
text, split on runs of whitespace, keep tokens of length ≥ 3 that are not
stop words and match `/^[a-zA-Z]+$/`. -/
def getSignificantWords (text : List Char) : List (List Char) :=
  (splitRuns isSpace (text.map toLowerChar)).filter fun word =>
    decide (3 ≤ word.length) && !isStopWord word && isAlphaToken word

/-- `extractSentences` (`deepSeekApi.ts`, lines 104–109): split on runs of
`.`, `!`, `?`, trim each fragment, keep fragments of trimmed length ≥ 15. -/
def extractSentences (text : List Char) : List (List Char) :=
  ((splitRuns isDelim text).map trim).filter fun s => decide (15 ≤ s.length)

/-- `Math.round((num / den) * 100)` for naturals with `den > 0`:
`⌊100·num/den + 1/2⌋`, i.e. round half up. -/
def roundRatio (num den : Nat) : Nat :=
  (200 * num + den) / (2 * den)

/-- `calculateSimilarity` (`deepSeekApi.ts`, lines 49–63): Jaccard index of
the deduplicated significant-word sets, rounded to a percentage; 0 if either
word list is empty.  `new Set(words)` is modelled by `List.dedup` (only the
set's size and membership are consumed). -/
def calculateSimilarity (text1 text2 : List Char) : Nat :=
  let words1 := getSignificantWords text1
  let words2 := getSignificantWords text2
  if words1.length = 0 ∨ words2.length = 0 then 0
  else
    let set1 := words1.dedup
    let set2 := words2.dedup
    let inter := set1.filter fun x => x ∈ set2
    let union := (set1 ++ set2).dedup
    roundRatio inter.length union.length

/-- `calculateSentenceSimilarity` (`deepSeekApi.ts`, lines 111–119):
containment overlap with multiplicity from the first sentence, over the
larger word count; 0 if either word list is empty. -/
def calculateSentenceSimilarity (sentence1 sentence2 : List Char) : Nat :=
  let words1 := getSignificantWords sentence1
  let words2 := getSignificantWords sentence2
  if words1.length = 0 ∨ words2.length = 0 then 0
  else
    let commonWords := words1.filter fun word => word ∈ words2
    roundRatio commonWords.length (max words1.length words2.length)

/-- `getWordCount` (`deepSeekApi.ts`, lines 130–132): number of non-empty
whitespace-delimited tokens, no case folding, no filtering. -/
def getWordCount (text : List Char) : Nat :=
  ((splitRuns isSpace text).filter fun word => decide (0 < word.length)).length

/-- The `MatchedSentence` interface (`deepSeekApi.ts`, lines 38–42). -/
structure MatchedSentence where
  sentence : List Char
  similarity : Nat
  sourceFile : List Char
deriving DecidableEq, Repr

/-- The fields of the `DetectionResult` interface (`deepSeekApi.ts`,
lines 26–36) consumed or produced by the engine (`timestamp`, a `Date`, is
modelled as a natural). -/
structure DetectionResult where
  id : List Char
  fileName : List Char
  fileType : List Char
  content : List Char
  similarity : Nat
  matchList : List MatchedSentence
  timestamp : Nat
  wordCount : Nat
  pageCount : Option Nat := none
deriving DecidableEq, Repr

/-- The `SIMILARITY_THRESHOLD` constant (`deepSeekApi.ts`, line 47). -/
def SIMILARITY_THRESHOLD : Nat := 75

/-- The candidate-match list built by the three nested `forEach` loops of
`findDetailedMatches` (`deepSeekApi.ts`, lines 69–85), in push order:
corpus documents outermost, then new-document sentences, then
prior-document sentences. -/
def allMatches (text : List Char) (existingResults : List DetectionResult) :
    List MatchedSentence :=
  let sentences := extractSentences text
  existingResults.flatMap fun result =>
    let existingSentences := extractSentences result.content
    sentences.flatMap fun sentence =>
      existingSentences.filterMap fun existingSentence =>
        let similarity := calculateSentenceSimilarity sentence existingSentence
        if SIMILARITY_THRESHOLD ≤ similarity then
          some { sentence := sentence.take 200 ++
                   (if 200 < sentence.length then "...".toList else []),
                 similarity := similarity,
                 sourceFile := result.fileName }
        else none

/-- One step of the stable insertion sort: insert `m` before the first
element whose similarity is not greater than `m`'s.  This is the unique
stable order produced by `Array.prototype.sort` with the comparator
`(a, b) => b.similarity - a.similarity`. -/
def insertDesc (m : MatchedSentence) : List MatchedSentence → List MatchedSentence
  | [] => [m]
  | x :: xs =>
    if m.similarity < x.similarity then x :: insertDesc m xs else m :: x :: xs

/-- Stable sort by similarity descending. -/
def sortDesc : List MatchedSentence → List MatchedSentence
  | [] => []
  | x :: xs => insertDesc x (sortDesc xs)

/-- `findDetailedMatches` (`deepSeekApi.ts`, lines 65–91): collect all
candidate matches, sort by similarity descending (stable), return the first
five. -/
def findDetailedMatches (text : List Char) (existingResults : List DetectionResult) :
    List MatchedSentence :=
  (sortDesc (allMatches text existingResults)).take 5

/-- The similarity attached to a new submission by `handleFileUpload`
(`App.tsx`, lines 38–40): `Math.max` of `calculateSimilarity` against every
stored result when there are any, otherwise 0. -/
def submissionSimilarity (content : List Char) (results : List DetectionResult) : Nat :=
  if 0 < results.length then
    (results.map fun result => calculateSimilarity content result.content).foldl max 0
  else 0

/-! ## Lemmas about `splitRuns` -/

theorem splitRuns_ne_nil (p : Char → Bool) (l : List Char) : splitRuns p l ≠ [] := by
  induction l using splitRuns.induct p with
  | case1 => simp [splitRuns]
  | case2 c hpc => simp [splitRuns, hpc]
  | case3 c hpc c2 tail hpc2 ih => simpa [splitRuns, hpc, hpc2] using ih
  | case4 c hpc c2 tail hpc2 ih => simp [splitRuns, hpc, hpc2]
  | case5 c tail hpc heq ih => simp [splitRuns, hpc, heq]
  | case6 c tail hpc f rest heq ih => simp [splitRuns, hpc, heq]

/-- Every character of every fragment fails the delimiter predicate and
comes from the input. -/
theorem splitRuns_sound (p : Char → Bool) (l : List Char) :
    ∀ f ∈ splitRuns p l, ∀ c ∈ f, p c = false ∧ c ∈ l := by
  induction l using splitRuns.induct p with
  | case1 => simp [splitRuns]
  | case2 c hpc => simp [splitRuns, hpc]
  | case3 c hpc c2 tail hpc2 ih =>
    intro f hf x hx
    rw [show splitRuns p (c :: c2 :: tail) = splitRuns p (c2 :: tail) by
      simp [splitRuns, hpc, hpc2]] at hf
    obtain ⟨h1, h2⟩ := ih f hf x hx
    exact ⟨h1, List.mem_cons_of_mem _ h2⟩
  | case4 c hpc c2 tail hpc2 ih =>
    intro f hf x hx
    rw [show splitRuns p (c :: c2 :: tail) = [] :: splitRuns p (c2 :: tail) by
      simp [splitRuns, hpc, hpc2]] at hf
    rcases List.mem_cons.mp hf with rfl | hf
    · simp at hx
    · obtain ⟨h1, h2⟩ := ih f hf x hx
      exact ⟨h1, List.mem_cons_of_mem _ h2⟩
  | case5 c tail hpc heq ih =>
    intro f hf x hx
    rw [show splitRuns p (c :: tail) = [[c]] by simp [splitRuns, hpc, heq]] at hf
    rcases List.mem_singleton.mp hf with rfl
    rcases List.mem_singleton.mp hx with rfl
    exact ⟨Bool.eq_false_iff.mpr hpc, List.mem_cons_self _ _⟩
  | case6 c tail hpc f0 rest heq ih =>
    intro f hf x hx
    rw [show splitRuns p (c :: tail) = (c :: f0) :: rest by
      simp [splitRuns, hpc, heq]] at hf
    rcases List.mem_cons.mp hf with rfl | hf
    · rcases List.mem_cons.mp hx with rfl | hx
      · exact ⟨Bool.eq_false_iff.mpr hpc, List.mem_cons_self _ _⟩
      · obtain ⟨h1, h2⟩ := ih f0 (by rw [heq]; exact List.mem_cons_self _ _) x hx
        exact ⟨h1, List.mem_cons_of_mem _ h2⟩
    · obtain ⟨h1, h2⟩ := ih f (by rw [heq]; exact List.mem_cons_of_mem _ hf) x hx
      exact ⟨h1, List.mem_cons_of_mem _ h2⟩

/-- Splitting commutes with a character map that preserves the delimiter
predicate. -/
theorem splitRuns_map (p : Char → Bool) (g : Char → Char)
    (hg : ∀ c, p (g c) = p c) (l : List Char) :
    splitRuns p (l.map g) = (splitRuns p l).map (List.map g) := by
  induction l using splitRuns.induct p with
  | case1 => simp [splitRuns]
  | case2 c hpc => simp [splitRuns, hpc, hg]
  | case3 c hpc c2 tail hpc2 ih =>
    rw [List.map_cons,
        show splitRuns p (g c :: (c2 :: tail).map g) = splitRuns p ((c2 :: tail).map g) by
          rw [List.map_cons]
          simp [splitRuns, hg, hpc, hpc2],
        show splitRuns p (c :: c2 :: tail) = splitRuns p (c2 :: tail) by
          simp [splitRuns, hpc, hpc2],
        ih]
  | case4 c hpc c2 tail hpc2 ih =>
    rw [List.map_cons,
        show splitRuns p (g c :: (c2 :: tail).map g) = [] :: splitRuns p ((c2 :: tail).map g) by
          rw [List.map_cons]
          simp [splitRuns, hg, hpc, hpc2],
        show splitRuns p (c :: c2 :: tail) = [] :: splitRuns p (c2 :: tail) by
          simp [splitRuns, hpc, hpc2],
        ih]
    simp
  | case5 c tail hpc heq ih =>
    rw [List.map_cons,
        show splitRuns p (c :: tail) = [[c]] by simp [splitRuns, hpc, heq]]
    have hmap : splitRuns p (tail.map g) = [] := by rw [ih, heq]; rfl
    rw [show splitRuns p (g c :: tail.map g) = [[g c]] by
      simp [splitRuns, hg, hpc, hmap]]
    simp
  | case6 c tail hpc f0 rest heq ih =>
    rw [List.map_cons,
        show splitRuns p (c :: tail) = (c :: f0) :: rest by
          simp [splitRuns, hpc, heq]]
    have hmap : splitRuns p (tail.map g) = (f0.map g) :: rest.map (List.map g) := by
      rw [ih, heq]; rfl
    rw [show splitRuns p (g c :: tail.map g) = (g c :: f0.map g) :: rest.map (List.map g) by
      simp [splitRuns, hg, hpc, hmap]]
    simp

/-! ## Character-level lemmas and `trim` -/

theorem mem_trim {c : Char} {s : List Char} (h : c ∈ trim s) : c ∈ s := by
  unfold trim at h
  have h1 := List.mem_reverse.mp h
  have h2 := ((s.dropWhile isSpace).reverse.dropWhile_sublist isSpace).mem h1
  have h3 := List.mem_reverse.mp h2
  exact (s.dropWhile_sublist isSpace).mem h3

theorem isUpperAlpha_ofNat_shift {n : Nat} (h1 : 65 ≤ n) (h2 : n ≤ 90) :
    isUpperAlpha (Char.ofNat (n + 32)) = false ∧
    isLowerAlpha (Char.ofNat (n + 32)) = true ∧
    isSpace (Char.ofNat (n + 32)) = false := by
  interval_cases n <;> exact ⟨by decide, by decide, by decide⟩

theorem isUpperAlpha_toLowerChar (c : Char) : isUpperAlpha (toLowerChar c) = false := by
  unfold toLowerChar
  split
  · next h => exact (isUpperAlpha_ofNat_shift h.1 h.2).1
  · next h =>
    unfold isUpperAlpha
    by_cases hA : 65 ≤ c.toNat
    · have hB : ¬(c.toNat ≤ 90) := fun hB => h ⟨hA, hB⟩
      rw [decide_eq_false hB, Bool.and_false]
    · rw [decide_eq_false hA, Bool.false_and]

theorem toLowerChar_of_not_upper {c : Char} (h : isUpperAlpha c = false) :
    toLowerChar c = c := by
  unfold isUpperAlpha at h
  unfold toLowerChar
  rw [if_neg]
  intro hc
  rw [decide_eq_true hc.1, decide_eq_true hc.2] at h
  simp at h

theorem isSpace_of_bounds {c : Char} (h1 : 65 ≤ c.toNat) (h2 : c.toNat ≤ 90) :
    isSpace c = false := by
  have hne : ∀ d : Char, d.toNat < 65 → ¬(c = d) := by
    intro d hd he
    subst he
    omega
  unfold isSpace
  simp only [Bool.or_eq_false_iff, beq_eq_false_iff_ne, ne_eq]
  exact ⟨⟨⟨⟨⟨hne ' ' (by decide), hne '\t' (by decide)⟩, hne '\n' (by decide)⟩,
    hne '\r' (by decide)⟩, hne '\x0B' (by decide)⟩, hne '\x0C' (by decide)⟩

theorem isSpace_toLowerChar (c : Char) : isSpace (toLowerChar c) = isSpace c := by
  unfold toLowerChar
  split
  · next h => rw [(isUpperAlpha_ofNat_shift h.1 h.2).2.2, isSpace_of_bounds h.1 h.2]
  · rfl


/-! ## Significant-word and score-formula lemmas -/

theorem and_decide_eq_false {A B : Prop} [Decidable A] [Decidable B] (h : ¬(A ∧ B)) :
    (decide A && decide B) = false := by
  by_cases hA : A
  · have hB : ¬B := fun hB => h ⟨hA, hB⟩
    rw [decide_eq_false hB, Bool.and_false]
  · rw [decide_eq_false hA, Bool.false_and]

theorem not_upper_of_lower {c : Char} (h : isLowerAlpha c = true) :
    isUpperAlpha c = false := by
  unfold isLowerAlpha at h
  simp only [Bool.and_eq_true, decide_eq_true_eq] at h
  unfold isUpperAlpha
  exact and_decide_eq_false (by omega)

/-- Every token returned by `getSignificantWords` has length ≥ 3, is not a
stop word, and consists purely of lower-case ASCII letters. -/
theorem getSignificantWords_sound (t : List Char) :
    ∀ w ∈ getSignificantWords t,
      3 ≤ w.length ∧ isStopWord w = false ∧ ∀ c ∈ w, isLowerAlpha c = true := by
  intro w hw
  unfold getSignificantWords at hw
  rw [List.mem_filter] at hw
  obtain ⟨hmem, hcond⟩ := hw
  simp only [Bool.and_eq_true, decide_eq_true_eq, Bool.not_eq_true'] at hcond
  obtain ⟨⟨hlen, hstop⟩, halpha⟩ := hcond
  refine ⟨hlen, hstop, ?_⟩
  intro c hc
  obtain ⟨-, hcmem⟩ := splitRuns_sound isSpace _ w hmem c hc
  rw [List.mem_map] at hcmem
  obtain ⟨c0, -, hc0⟩ := hcmem
  unfold isAlphaToken at halpha
  rw [Bool.and_eq_true, List.all_eq_true] at halpha
  have hac : isAlphaChar c = true := halpha.2 c hc
  unfold isAlphaChar at hac
  rcases (by simpa using hac : isLowerAlpha c = true ∨ isUpperAlpha c = true) with h | h
  · exact h
  · rw [← hc0, isUpperAlpha_toLowerChar] at h
    exact absurd h (by simp)

theorem map_toLowerChar_fixed {w : List Char}
    (h : ∀ c ∈ w, isLowerAlpha c = true) : w.map toLowerChar = w := by
  induction w with
  | nil => rfl
  | cons c cs ih =>
    rw [List.map_cons,
        toLowerChar_of_not_upper (not_upper_of_lower (h c (List.mem_cons_self _ _))),
        ih fun x hx => h x (List.mem_cons_of_mem _ hx)]

/-! ## Rounding lemmas -/

theorem roundRatio_le_100 {num den : Nat} (hle : num ≤ den) (hpos : 0 < den) :
    roundRatio num den ≤ 100 := by
  unfold roundRatio
  have h2 : 0 < 2 * den := by omega
  have hlt : (200 * num + den) / (2 * den) < 101 := by
    rw [Nat.div_lt_iff_lt_mul h2]
    omega
  omega

theorem roundRatio_self {c : Nat} (h : 0 < c) : roundRatio c c = 100 := by
  unfold roundRatio
  rw [show 200 * c + c = 2 * c * 100 + c by ring,
      Nat.mul_add_div (by omega : 0 < 2 * c),
      Nat.div_eq_of_lt (by omega : c < 2 * c)]

/-! ## The document-level score as the specification states it -/

/-- The deduplicated significant-word set of a text. -/
def wordSet (t : List Char) : Finset (List Char) :=
  (getSignificantWords t).toFinset

/-- `round(100 × |A∩B| / |A∪B|)` over the significant-word sets, 0 when
either set is empty: the specification's description of
`calculateSimilarity`. -/
def jaccardSimilarity (t1 t2 : List Char) : Nat :=
  if wordSet t1 = ∅ ∨ wordSet t2 = ∅ then 0
  else roundRatio ((wordSet t1 ∩ wordSet t2).card) ((wordSet t1 ∪ wordSet t2).card)

theorem dedup_filter_length (l1 l2 : List (List Char)) :
    (l1.dedup.filter fun x => x ∈ l2.dedup).length =
      (l1.toFinset ∩ l2.toFinset).card := by
  have hnd : (l1.dedup.filter fun x => x ∈ l2.dedup).Nodup :=
    l1.nodup_dedup.filter _
  rw [← List.toFinset_card_of_nodup hnd]
  congr 1
  ext a
  simp [List.mem_toFinset, List.mem_filter, List.mem_dedup, Finset.mem_inter]

theorem dedup_append_dedup_length (l1 l2 : List (List Char)) :
    ((l1.dedup ++ l2.dedup).dedup).length = (l1.toFinset ∪ l2.toFinset).card := by
  rw [← List.card_toFinset]
  congr 1
  ext a
  simp [List.mem_toFinset, List.mem_append, List.mem_dedup, Finset.mem_union]

theorem calculateSimilarity_eq_jaccard (t1 t2 : List Char) :
    calculateSimilarity t1 t2 = jaccardSimilarity t1 t2 := by
  have hcond : ((getSignificantWords t1).length = 0 ∨ (getSignificantWords t2).length = 0) ↔
      ((getSignificantWords t1).toFinset = ∅ ∨ (getSignificantWords t2).toFinset = ∅) := by
    rw [List.length_eq_zero, List.length_eq_zero,
        List.toFinset_eq_empty_iff, List.toFinset_eq_empty_iff]
  by_cases h : (getSignificantWords t1).length = 0 ∨ (getSignificantWords t2).length = 0
  · simp only [calculateSimilarity, jaccardSimilarity, wordSet]
    rw [if_pos h, if_pos (hcond.mp h)]
  · simp only [calculateSimilarity, jaccardSimilarity, wordSet]
    rw [if_neg h, if_neg fun hx => h (hcond.mpr hx),
        dedup_filter_length, dedup_append_dedup_length]

/-! ## The sentence-level score as the specification states it -/

/-- `round(100 × (multiplicity-counted overlap from A) / max(|A|,|B|))`, 0
when either word list is empty: the specification's description of
`calculateSentenceSimilarity`. -/
def containmentSimilarity (s1 s2 : List Char) : Nat :=
  let words1 := getSignificantWords s1
  let words2 := getSignificantWords s2
  if words1 = [] ∨ words2 = [] then 0
  else roundRatio (words1.countP fun w => decide (w ∈ words2))
    (max words1.length words2.length)

theorem calculateSentenceSimilarity_eq_containment (s1 s2 : List Char) :
    calculateSentenceSimilarity s1 s2 = containmentSimilarity s1 s2 := by
  have hcond : ((getSignificantWords s1).length = 0 ∨ (getSignificantWords s2).length = 0) ↔
      ((getSignificantWords s1) = [] ∨ (getSignificantWords s2) = []) := by
    rw [List.length_eq_zero, List.length_eq_zero]
  by_cases h : (getSignificantWords s1).length = 0 ∨ (getSignificantWords s2).length = 0
  · simp only [calculateSentenceSimilarity, containmentSimilarity]
    rw [if_pos h, if_pos (hcond.mp h)]
  · simp only [calculateSentenceSimilarity, containmentSimilarity]
    rw [if_neg h, if_neg fun hx => h (hcond.mpr hx),
        List.countP_eq_length_filter]


/-! ## Sorting and selection lemmas -/

theorem mem_insertDesc {a m : MatchedSentence} {l : List MatchedSentence} :
    a ∈ insertDesc m l ↔ a = m ∨ a ∈ l := by
  induction l with
  | nil => simp [insertDesc]
  | cons x xs ih =>
    unfold insertDesc
    split
    · simp only [List.mem_cons, ih]
      tauto
    · simp only [List.mem_cons]

theorem insertDesc_pairwise {m : MatchedSentence} {l : List MatchedSentence}
    (h : l.Pairwise fun a b => b.similarity ≤ a.similarity) :
    (insertDesc m l).Pairwise fun a b => b.similarity ≤ a.similarity := by
  induction l with
  | nil => simp [insertDesc]
  | cons x xs ih =>
    rw [List.pairwise_cons] at h
    obtain ⟨hx, hxs⟩ := h
    unfold insertDesc
    split
    · next hlt =>
      rw [List.pairwise_cons]
      refine ⟨?_, ih hxs⟩
      intro b hb
      rcases mem_insertDesc.mp hb with rfl | hb
      · exact Nat.le_of_lt hlt
      · exact hx b hb
    · next hge =>
      rw [List.pairwise_cons]
      refine ⟨?_, List.pairwise_cons.mpr ⟨hx, hxs⟩⟩
      intro b hb
      rcases List.mem_cons.mp hb with rfl | hb
      · exact Nat.le_of_not_lt hge
      · exact Nat.le_trans (hx b hb) (Nat.le_of_not_lt hge)

theorem sortDesc_pairwise (l : List MatchedSentence) :
    (sortDesc l).Pairwise fun a b => b.similarity ≤ a.similarity := by
  induction l with
  | nil => simp [sortDesc]
  | cons x xs ih => exact insertDesc_pairwise ih

theorem mem_sortDesc {a : MatchedSentence} {l : List MatchedSentence} :
    a ∈ sortDesc l ↔ a ∈ l := by
  induction l with
  | nil => simp [sortDesc]
  | cons x xs ih =>
    show a ∈ insertDesc x (sortDesc xs) ↔ _
    rw [mem_insertDesc, ih]
    simp [List.mem_cons]

theorem insertDesc_filter_ne {v : Nat} {m : MatchedSentence} (l : List MatchedSentence)
    (hm : m.similarity ≠ v) :
    (insertDesc m l).filter (fun x => x.similarity == v) =
      l.filter fun x => x.similarity == v := by
  induction l with
  | nil => simp [insertDesc, hm]
  | cons x xs ih =>
    unfold insertDesc
    split
    · simp only [List.filter_cons, ih]
    · simp [List.filter_cons, hm]

theorem insertDesc_filter_eq {v : Nat} {m : MatchedSentence} {l : List MatchedSentence}
    (hm : m.similarity = v)
    (hl : l.Pairwise fun a b => b.similarity ≤ a.similarity) :
    (insertDesc m l).filter (fun x => x.similarity == v) =
      m :: l.filter fun x => x.similarity == v := by
  induction l with
  | nil => simp [insertDesc, hm]
  | cons x xs ih =>
    rw [List.pairwise_cons] at hl
    obtain ⟨hx, hxs⟩ := hl
    unfold insertDesc
    split
    · next hlt =>
      have hxv : x.similarity ≠ v := by omega
      simp [List.filter_cons, hxv, ih hxs]
    · next hge =>
      simp [List.filter_cons, hm]

theorem sortDesc_filter (v : Nat) (l : List MatchedSentence) :
    (sortDesc l).filter (fun x => x.similarity == v) =
      l.filter fun x => x.similarity == v := by
  induction l with
  | nil => rfl
  | cons x xs ih =>
    by_cases hx : x.similarity = v
    · rw [show sortDesc (x :: xs) = insertDesc x (sortDesc xs) from rfl,
          insertDesc_filter_eq hx (sortDesc_pairwise xs), ih]
      simp [List.filter_cons, hx]
    · rw [show sortDesc (x :: xs) = insertDesc x (sortDesc xs) from rfl,
          insertDesc_filter_ne _ hx, ih]
      simp [List.filter_cons, hx]

theorem filter_take_five (l : List MatchedSentence) (p : MatchedSentence → Bool) :
    (l.take 5).filter p <+: l.filter p := by
  refine ⟨(l.drop 5).filter p, ?_⟩
  rw [← List.filter_append, List.take_append_drop]

theorem foldl_max_spec (l : List Nat) (a : Nat) :
    a ≤ l.foldl max a ∧ (∀ x ∈ l, x ≤ l.foldl max a) ∧
      (l.foldl max a = a ∨ l.foldl max a ∈ l) := by
  induction l generalizing a with
  | nil => simp
  | cons x xs ih =>
    simp only [List.foldl_cons]
    obtain ⟨h1, h2, h3⟩ := ih (max a x)
    refine ⟨Nat.le_trans (Nat.le_max_left a x) h1, ?_, ?_⟩
    · intro y hy
      rcases List.mem_cons.mp hy with rfl | hy
      · exact Nat.le_trans (Nat.le_max_right a _) h1
      · exact h2 y hy
    · rcases h3 with h | h
      · rcases max_choice a x with hm | hm
        · left; rw [h, hm]
        · right; rw [h, hm]; exact List.mem_cons_self _ _
      · right; exact List.mem_cons_of_mem _ h

/-! ## Claims about the tokenizer and segmenter -/

/-- ASCII digit `0`–`9`. -/
def isDigitChar (c : Char) : Bool :=
  48 ≤ c.toNat && c.toNat ≤ 57

theorem countP_le_countP {α : Type} (p q : α → Bool) (l : List α)
    (h : ∀ a ∈ l, p a = true → q a = true) : l.countP p ≤ l.countP q := by
  induction l with
  | nil => simp
  | cons x xs ih =>
    rw [List.countP_cons, List.countP_cons]
    have hxs := ih fun a ha => h a (List.mem_cons_of_mem _ ha)
    by_cases hp : p x = true
    · rw [if_pos hp, if_pos (h x (List.mem_cons_self _ _) hp)]
      omega
    · rw [if_neg hp]
      split <;> omega

/-- Claim C9: `extractSentences` keeps exactly the fragments of trimmed
length ≥ 15, in original order, and no returned fragment contains a
delimiter character `.`, `!` or `?`. -/
theorem extractSentences_spec (t : List Char) :
    (∀ s ∈ extractSentences t, 15 ≤ s.length ∧ ∀ c ∈ s, isDelim c = false) ∧
    List.Sublist (extractSentences t) ((splitRuns isDelim t).map trim) ∧
    ∀ f ∈ (splitRuns isDelim t).map trim, 15 ≤ f.length → f ∈ extractSentences t := by
  refine ⟨?_, ?_, ?_⟩
  · intro s hs
    unfold extractSentences at hs
    rw [List.mem_filter] at hs
    obtain ⟨hmem, hlen⟩ := hs
    rw [List.mem_map] at hmem
    obtain ⟨f, hf, rfl⟩ := hmem
    refine ⟨by simpa using hlen, ?_⟩
    intro c hc
    exact (splitRuns_sound isDelim t f hf c (mem_trim hc)).1
  · exact List.filter_sublist _
  · intro f hf hlen
    unfold extractSentences
    rw [List.mem_filter]
    exact ⟨hf, by simpa using hlen⟩

/-- Witness for C9 at a concrete input. -/
theorem extractSentences_spec_witness :
    15 ≤ "This is a long sentence here".toList.length ∧
    "This is a long sentence here".toList ∈
      extractSentences "Hi. This is a long sentence here! no?".toList :=
  ⟨((extractSentences_spec "Hi. This is a long sentence here! no?".toList).1
      "This is a long sentence here".toList (by decide)).1,
   (extractSentences_spec "Hi. This is a long sentence here! no?".toList).2.2
      "This is a long sentence here".toList (by decide) (by decide)⟩

/-- Counterexample to claim C2 as stated: the token `runs.` of
`"The Quick fox runs."` contains a period, so the alphabetic-only filter
discards it entirely and `runs` is not returned. -/
theorem getSignificantWords_example_counterexample :
    getSignificantWords "The Quick fox runs.".toList ≠
      ["quick".toList, "fox".toList, "runs".toList] := by
  decide

/-- Claim C2 (amended): every returned token consists purely of lower-case
ASCII letters (hence contains no digit and no punctuation), is not a stop
word even case-insensitively, and
`getSignificantWords "The Quick fox runs."` is `["quick","fox"]` — the
token `runs.` is discarded entirely, not partially cleaned. -/
theorem getSignificantWords_spec :
    (∀ t : List Char, ∀ w ∈ getSignificantWords t,
      (∀ c ∈ w, isLowerAlpha c = true ∧ isDigitChar c = false) ∧
      isStopWord w = false ∧ w.map toLowerChar ∉ stopWords) ∧
    getSignificantWords "The Quick fox runs.".toList =
      ["quick".toList, "fox".toList] := by
  constructor
  · intro t w hw
    obtain ⟨hlen, hstop, hlower⟩ := getSignificantWords_sound t w hw
    refine ⟨?_, hstop, ?_⟩
    · intro c hc
      refine ⟨hlower c hc, ?_⟩
      have hlc := hlower c hc
      unfold isLowerAlpha at hlc
      simp only [Bool.and_eq_true, decide_eq_true_eq] at hlc
      unfold isDigitChar
      exact and_decide_eq_false (by omega)
    · rw [map_toLowerChar_fixed hlower]
      intro hmem
      unfold isStopWord at hstop
      have : w ∉ stopWords := by simpa using hstop
      exact this hmem
  · decide

/-- Witness for the amended C2 at a concrete token. -/
theorem getSignificantWords_spec_witness :
    isStopWord "quick".toList = false ∧ isLowerAlpha 'q' = true :=
  ⟨(getSignificantWords_spec.1 "The Quick fox runs.".toList "quick".toList
      (by decide)).2.1,
   ((getSignificantWords_spec.1 "The Quick fox runs.".toList "quick".toList
      (by decide)).1 'q' (by decide)).1⟩

/-- Claim C10: `getSignificantWords` returns at most as many tokens as
`getWordCount` counts, since both split on the same whitespace pattern and
`getSignificantWords` only filters tokens out. -/
theorem getSignificantWords_length_le_getWordCount (t : List Char) :
    (getSignificantWords t).length ≤ getWordCount t := by
  unfold getSignificantWords getWordCount
  rw [splitRuns_map isSpace toLowerChar isSpace_toLowerChar,
      ← List.countP_eq_length_filter, ← List.countP_eq_length_filter,
      List.countP_map]
  apply countP_le_countP
  intro w hw hcond
  simp only [Function.comp_apply, Bool.and_eq_true, decide_eq_true_eq] at hcond
  simp only [decide_eq_true_eq]
  have h3 := hcond.1.1
  rw [List.length_map] at h3
  omega


/-! ## Claims about the similarity scores -/

/-- Claim C3: `calculateSentenceSimilarity` computes the containment-style
overlap `round(100 × (multiplicity-counted overlap from A) / max(|A|,|B|))`
on significant words, and returns 0 whenever either sentence yields zero
significant words. -/
theorem calculateSentenceSimilarity_spec (s1 s2 : List Char) :
    calculateSentenceSimilarity s1 s2 = containmentSimilarity s1 s2 ∧
    ((getSignificantWords s1 = [] ∨ getSignificantWords s2 = []) →
      calculateSentenceSimilarity s1 s2 = 0) := by
  refine ⟨calculateSentenceSimilarity_eq_containment s1 s2, fun h => ?_⟩
  have hlen : (getSignificantWords s1).length = 0 ∨ (getSignificantWords s2).length = 0 := by
    rcases h with h | h
    · left; simp [h]
    · right; simp [h]
  simp only [calculateSentenceSimilarity]
  rw [if_pos hlen]

/-- Witness for C3: a sentence of stop words only scores 0. -/
theorem calculateSentenceSimilarity_spec_witness :
    calculateSentenceSimilarity "the".toList "alpha bravo cat".toList = 0 :=
  (calculateSentenceSimilarity_spec "the".toList "alpha bravo cat".toList).2
    (Or.inl (by decide))

/-- Claim C4: `calculateSimilarity` computes `round(100 × |A∩B| / |A∪B|)`
over the deduplicated significant-word sets, and returns 0 whenever either
word set is empty. -/
theorem calculateSimilarity_spec (t1 t2 : List Char) :
    calculateSimilarity t1 t2 = jaccardSimilarity t1 t2 ∧
    ((wordSet t1 = ∅ ∨ wordSet t2 = ∅) → calculateSimilarity t1 t2 = 0) := by
  refine ⟨calculateSimilarity_eq_jaccard t1 t2, fun h => ?_⟩
  rw [calculateSimilarity_eq_jaccard]
  unfold jaccardSimilarity
  rw [if_pos h]

/-- Witness for C4: an all-stop-word text scores 0 against anything. -/
theorem calculateSimilarity_spec_witness :
    calculateSimilarity "the".toList "alpha bravo".toList = 0 :=
  (calculateSimilarity_spec "the".toList "alpha bravo".toList).2
    (Or.inl (by decide))

/-- Claim C7: `calculateSimilarity` is symmetric, and a text with at least
one significant word scores 100 against itself. -/
theorem calculateSimilarity_symm_self :
    (∀ a b : List Char, calculateSimilarity a b = calculateSimilarity b a) ∧
    (∀ a : List Char, getSignificantWords a ≠ [] →
      calculateSimilarity a a = 100) := by
  constructor
  · intro a b
    rw [calculateSimilarity_eq_jaccard, calculateSimilarity_eq_jaccard]
    unfold jaccardSimilarity
    by_cases h : wordSet a = ∅ ∨ wordSet b = ∅
    · rw [if_pos h, if_pos h.symm]
    · rw [if_neg h, if_neg fun hx => h hx.symm,
          Finset.inter_comm, Finset.union_comm]
  · intro a ha
    rw [calculateSimilarity_eq_jaccard]
    unfold jaccardSimilarity
    have hne : wordSet a ≠ ∅ := by
      unfold wordSet
      rw [Ne, List.toFinset_eq_empty_iff]
      exact ha
    rw [if_neg (by rw [or_self]; exact hne), Finset.inter_self, Finset.union_self]
    apply roundRatio_self
    rw [Finset.card_pos, Finset.nonempty_iff_ne_empty]
    exact hne

/-- Witness for C7 at concrete texts. -/
theorem calculateSimilarity_symm_self_witness :
    calculateSimilarity "alpha bravo".toList "alpha charlie".toList =
      calculateSimilarity "alpha charlie".toList "alpha bravo".toList ∧
    calculateSimilarity "alpha bravo".toList "alpha bravo".toList = 100 :=
  ⟨calculateSimilarity_symm_self.1 "alpha bravo".toList "alpha charlie".toList,
   calculateSimilarity_symm_self.2 "alpha bravo".toList (by decide)⟩

/-- Claim C8: both scores are integers in `[0, 100]` (naturals bounded by
100), and both are exactly 0 whenever either input has zero significant
words. -/
theorem similarity_bounds (t1 t2 : List Char) :
    calculateSimilarity t1 t2 ≤ 100 ∧ calculateSentenceSimilarity t1 t2 ≤ 100 ∧
    ((getSignificantWords t1 = [] ∨ getSignificantWords t2 = []) →
      calculateSimilarity t1 t2 = 0 ∧ calculateSentenceSimilarity t1 t2 = 0) := by
  refine ⟨?_, ?_, ?_⟩
  · rw [calculateSimilarity_eq_jaccard]
    unfold jaccardSimilarity
    split
    · exact Nat.zero_le 100
    · next h =>
      have h1 : wordSet t1 ≠ ∅ := fun hx => h (Or.inl hx)
      apply roundRatio_le_100
      · exact Finset.card_le_card (Finset.inter_subset_union)
      · rw [Finset.card_pos]
        obtain ⟨x, hx⟩ := Finset.nonempty_iff_ne_empty.mpr h1
        exact ⟨x, Finset.mem_union_left _ hx⟩
  · simp only [calculateSentenceSimilarity]
    split
    · exact Nat.zero_le 100
    · next h =>
      apply roundRatio_le_100
      · exact Nat.le_trans (List.length_filter_le _ _) (Nat.le_max_left _ _)
      · have hlen : (getSignificantWords t1).length ≠ 0 := fun hx => h (Or.inl hx)
        have := Nat.le_max_left (getSignificantWords t1).length
          (getSignificantWords t2).length
        omega
  · intro h
    have hlen : (getSignificantWords t1).length = 0 ∨
        (getSignificantWords t2).length = 0 := by
      rcases h with h | h
      · left; simp [h]
      · right; simp [h]
    constructor
    · simp only [calculateSimilarity]
      rw [if_pos hlen]
    · simp only [calculateSentenceSimilarity]
      rw [if_pos hlen]

/-- Witness for C8 at concrete texts. -/
theorem similarity_bounds_witness :
    calculateSimilarity "alpha bravo".toList "alpha charlie".toList ≤ 100 ∧
    calculateSimilarity "the".toList "alpha".toList = 0 ∧
    calculateSentenceSimilarity "the".toList "alpha".toList = 0 :=
  ⟨(similarity_bounds "alpha bravo".toList "alpha charlie".toList).1,
   ((similarity_bounds "the".toList "alpha".toList).2.2 (Or.inl (by decide))).1,
   ((similarity_bounds "the".toList "alpha".toList).2.2 (Or.inl (by decide))).2⟩


/-! ## Claims about match collection, ranking and the caller-facing score -/

/-- Builds a corpus document carrying only a name and a text, as
`handleFileUpload` would have stored it. -/
def mkDoc (name content : String) : DetectionResult :=
  { id := name.toList, fileName := name.toList, fileType := "text/plain".toList,
    content := content.toList, similarity := 0, matchList := [], timestamp := 0,
    wordCount := 0, pageCount := none }

/-- First corpus document of the concrete tie-break scenario. -/
def cexDoc1 : DetectionResult := mkDoc "doc1" "echo foxtrot golf hotel."

/-- Second corpus document of the concrete tie-break scenario. -/
def cexDoc2 : DetectionResult := mkDoc "doc2" "alpha bravo charlie delta."

/-- New-document text of the concrete tie-break scenario: its first sentence
matches `cexDoc2`, its second matches `cexDoc1`, both with similarity 100. -/
def cexText : List Char :=
  "alpha bravo charlie delta. echo foxtrot golf hotel.".toList

/-- Claim C5: every returned match carries the truncated sentence (200
characters plus a marker when longer), a similarity computed on the full
sentence, and similarity ≥ 75; conversely every sentence pair at or above
the threshold produces a candidate match. -/
theorem findDetailedMatches_matches_spec (text : List Char)
    (corpus : List DetectionResult) :
    (∀ m ∈ findDetailedMatches text corpus,
      SIMILARITY_THRESHOLD ≤ m.similarity ∧
      ∃ r ∈ corpus, ∃ s ∈ extractSentences text, ∃ es ∈ extractSentences r.content,
        m.similarity = calculateSentenceSimilarity s es ∧
        m.sourceFile = r.fileName ∧
        m.sentence = s.take 200 ++ (if 200 < s.length then "...".toList else [])) ∧
    (∀ r ∈ corpus, ∀ s ∈ extractSentences text, ∀ es ∈ extractSentences r.content,
      SIMILARITY_THRESHOLD ≤ calculateSentenceSimilarity s es →
      ({ sentence := s.take 200 ++ (if 200 < s.length then "...".toList else []),
         similarity := calculateSentenceSimilarity s es,
         sourceFile := r.fileName } : MatchedSentence) ∈ allMatches text corpus) := by
  constructor
  · intro m hm
    have hmem : m ∈ allMatches text corpus := by
      unfold findDetailedMatches at hm
      exact mem_sortDesc.mp (List.mem_of_mem_take hm)
    unfold allMatches at hmem
    simp only [List.mem_flatMap, List.mem_filterMap] at hmem
    obtain ⟨r, hr, s, hs, es, hes, hif⟩ := hmem
    by_cases hsim : SIMILARITY_THRESHOLD ≤ calculateSentenceSimilarity s es
    · rw [if_pos hsim, Option.some_inj] at hif
      subst hif
      exact ⟨hsim, r, hr, s, hs, es, hes, rfl, rfl, rfl⟩
    · rw [if_neg hsim] at hif
      exact absurd hif (by simp)
  · intro r hr s hs es hes hsim
    unfold allMatches
    simp only [List.mem_flatMap, List.mem_filterMap]
    exact ⟨r, hr, s, hs, es, hes, by rw [if_pos hsim]⟩

/-- Witness for C5 at the concrete scenario. -/
theorem findDetailedMatches_matches_spec_witness :
    SIMILARITY_THRESHOLD ≤
      (MatchedSentence.mk "echo foxtrot golf hotel".toList 100 "doc1".toList).similarity :=
  ((findDetailedMatches_matches_spec cexText [cexDoc1, cexDoc2]).1
    (MatchedSentence.mk "echo foxtrot golf hotel".toList 100 "doc1".toList)
    (by decide)).1

/-- Claim C6: the similarity attached to a new submission is the maximum of
`calculateSimilarity` over all corpus documents, and 0 when the corpus is
empty. -/
theorem submissionSimilarity_spec (content : List Char)
    (results : List DetectionResult) :
    (results = [] → submissionSimilarity content results = 0) ∧
    (∀ r ∈ results,
      calculateSimilarity content r.content ≤ submissionSimilarity content results) ∧
    (results ≠ [] → ∃ r ∈ results,
      submissionSimilarity content results = calculateSimilarity content r.content) := by
  refine ⟨?_, ?_, ?_⟩
  · intro h
    subst h
    rfl
  · intro r hr
    unfold submissionSimilarity
    rw [if_pos (List.length_pos.mpr (List.ne_nil_of_mem hr))]
    obtain ⟨-, h2, -⟩ := foldl_max_spec
      (results.map fun result => calculateSimilarity content result.content) 0
    exact h2 _ (List.mem_map.mpr ⟨r, hr, rfl⟩)
  · intro hne
    unfold submissionSimilarity
    rw [if_pos (List.length_pos.mpr hne)]
    obtain ⟨h1, h2, h3⟩ := foldl_max_spec
      (results.map fun result => calculateSimilarity content result.content) 0
    rcases h3 with h | h
    · obtain ⟨r, hr⟩ := List.exists_mem_of_ne_nil results hne
      refine ⟨r, hr, ?_⟩
      have hle := h2 _ (List.mem_map.mpr ⟨r, hr, rfl⟩)
      omega
    · rw [List.mem_map] at h
      obtain ⟨r, hr, heq⟩ := h
      exact ⟨r, hr, heq.symm⟩

/-- Witness for C6: empty corpus gives 0, and a stored document's score
bounds the attached similarity from below. -/
theorem submissionSimilarity_spec_witness :
    submissionSimilarity "alpha".toList [] = 0 ∧
    calculateSimilarity "alpha bravo".toList cexDoc2.content ≤
      submissionSimilarity "alpha bravo".toList [cexDoc2] :=
  ⟨(submissionSimilarity_spec "alpha".toList []).1 rfl,
   (submissionSimilarity_spec "alpha bravo".toList [cexDoc2]).2.1 cexDoc2
     (List.mem_singleton.mpr rfl)⟩

/-- Claim C1 (amended): `findDetailedMatches` returns at most 5 entries,
sorted by similarity non-increasing, ties broken stably by encounter order —
corpus order first, then new-document sentence order, then prior-document
sentence order (the push order of `allMatches`). -/
theorem findDetailedMatches_ranking (text : List Char)
    (corpus : List DetectionResult) :
    (findDetailedMatches text corpus).length ≤ 5 ∧
    (findDetailedMatches text corpus).Pairwise
      (fun a b => b.similarity ≤ a.similarity) ∧
    ∀ v : Nat,
      ((findDetailedMatches text corpus).filter fun m => m.similarity == v) <+:
        ((allMatches text corpus).filter fun m => m.similarity == v) := by
  refine ⟨?_, ?_, ?_⟩
  · unfold findDetailedMatches
    exact List.length_take_le _ _
  · unfold findDetailedMatches
    exact List.Pairwise.sublist (List.take_sublist _ _) (sortDesc_pairwise _)
  · intro v
    unfold findDetailedMatches
    have hpre := filter_take_five (sortDesc (allMatches text corpus))
      (fun m => m.similarity == v)
    rw [sortDesc_filter] at hpre
    exact hpre

/-- Counterexample to claim C1 as stated: both retained matches tie at
similarity 100; a tie-break by new-document sentence order first would list
the `doc2` match (from the first new sentence) before the `doc1` match
(from the second new sentence), but the code pushes candidates with the
corpus loop outermost, so the stable sort keeps the `doc1` match first. -/
theorem findDetailedMatches_tiebreak_counterexample :
    findDetailedMatches cexText [cexDoc1, cexDoc2] =
      [{ sentence := "echo foxtrot golf hotel".toList, similarity := 100,
         sourceFile := "doc1".toList },
       { sentence := "alpha bravo charlie delta".toList, similarity := 100,
         sourceFile := "doc2".toList }] ∧
    findDetailedMatches cexText [cexDoc1, cexDoc2] ≠
      [{ sentence := "alpha bravo charlie delta".toList, similarity := 100,
         sourceFile := "doc2".toList },
       { sentence := "echo foxtrot golf hotel".toList, similarity := 100,
         sourceFile := "doc1".toList }] := by
  constructor
  · decide
  · decide


end Plag
